import Mathlib

/-!
Verification of the tsproc timeseries processor (src/lib/tsproc.js,
src/lib/tsreductions.js, src/lib/tsinterp.js) against its specification.

The JavaScript code is shallowly embedded: documents (JSON records) become
association lists of field/value pairs, the tsproc instance state becomes a
structure holding the timeseries array and the per-series config array, and
callback-style error reporting becomes explicit Option-valued results. The
external date library (moment.js) is abstracted as a partial parse to an
integer time axis, as the specification treats timestamp parsing as an
external collaborator. The randomized index draws of isHomogeneous are passed
as explicit arguments, so the probabilistic check becomes a deterministic
function of the drawn outcome.
-/

set_option autoImplicit false

namespace Tsproc

/-- JavaScript values occurring in timeseries documents: numbers (modelled as
rationals), strings, the undefined value (absent property reads), and NaN
(results of arithmetic on non-numeric operands). -/
inductive JSVal where
  | num (q : ℚ)
  | str (s : String)
  | undefined
  | nan
  deriving DecidableEq, Inhabited

abbrev Field := String

/-- A JSON document: an ordered association list of field/value pairs, the
order being JS property-insertion order. -/
abbrev Doc := List (Field × JSVal)

/-- Property read `d[f]`; absent properties read as undefined. -/
def dget (d : Doc) (f : Field) : JSVal :=
  match d.find? (fun p => p.1 == f) with
  | some p => p.2
  | none => .undefined

/-- Property write `d[f] = v`: JS updates an existing property in place and
otherwise appends a new one (insertion order). -/
def dset (d : Doc) (f : Field) (v : JSVal) : Doc :=
  if d.any (fun p => p.1 == f) then
    d.map (fun p => if p.1 == f then (f, v) else p)
  else d ++ [(f, v)]

/-- Property deletion `delete d[f]`. -/
def ddel (d : Doc) (f : Field) : Doc :=
  d.filter (fun p => !(p.1 == f))

/-- JS `+` on document values: numeric addition and string concatenation; the
mixed cases (which JS resolves by coercing the number to its decimal string,
never exercised by the numeric reductions verified here) and the undefined
and NaN operands all produce NaN. -/
def jsAdd : JSVal → JSVal → JSVal
  | .num a, .num b => .num (a + b)
  | .str a, .str b => .str (a ++ b)
  | _, _ => .nan

/-- JS `/` on document values: numeric division. Division by zero (JS gives
Infinity, the rationals give 0) does not occur in the verified claims, whose
window counts are at least 1. Non-numeric operands give NaN. -/
def jsDiv : JSVal → JSVal → JSVal
  | .num a, .num b => .num (a / b)
  | _, _ => .nan

/-- JS `<` on document values: numeric and lexicographic string comparison;
comparisons against undefined or NaN are false. -/
def jsLt : JSVal → JSVal → Bool
  | .num a, .num b => decide (a < b)
  | .str a, .str b => decide (a < b)
  | _, _ => false

/-- JS truthiness of a document value. -/
def truthy : JSVal → Bool
  | .num q => q != 0
  | .str s => s != ""
  | .undefined => false
  | .nan => false

/-- One entry of a config `fields` array: `{name, quantum}`. -/
structure FieldConf where
  name : Field
  quantum : Option ℚ
  deriving DecidableEq, Inhabited

/-- One per-series entry of the tsproc `_config` array: the timestamp
descriptor (field name and format string) and the declared value fields. -/
structure TSConf where
  tsName : Field
  tsFormat : String
  fields : List FieldConf
  deriving DecidableEq, Inhabited

/-- The tsproc instance state: `this._timeseries` and `this._config`. -/
structure TSProc where
  timeseries : List (List Doc)
  config : List TSConf
  deriving DecidableEq, Inhabited

/-- The three indices produced by the three `Math.floor(Math.random()*m)`
draws inside `isHomogeneous`, passed explicitly so that the probabilistic
check becomes a deterministic function of the drawn outcome. -/
structure Draw where
  i1 : Nat
  i2 : Nat
  i3 : Nat
  deriving DecidableEq, Inhabited

/-- `getNbTS`. -/
def getNbTS (tsp : TSProc) : Nat := tsp.timeseries.length

/-- `getTSSize(ts_index)`. -/
def getTSSize (tsp : TSProc) (i : Nat) : Nat := (tsp.timeseries.getD i []).length

/-- `getDoc(ts_index, doc_index)`. Out-of-range reads, which do not occur in
the verified claims, are modelled as the empty document. -/
def getDoc (tsp : TSProc) (i j : Nat) : Doc := (tsp.timeseries.getD i []).getD j []

/-- `getTimestampField(ts_index)`: `this._config[ts_index].timestamp.name`. -/
def getTimestampField (tsp : TSProc) (i : Nat) : Field := (tsp.config.getD i default).tsName

/-- `getFields(ts_index)`: the declared value field names of a series. -/
def getFields (tsp : TSProc) (i : Nat) : List Field :=
  (tsp.config.getD i default).fields.map (·.name)

/-- `getEmptyDoc(ts_index, doc_index)`: a clone of the document with every
declared value field set to 0 and all other fields (timestamp, undeclared)
preserved as they are. -/
def getEmptyDoc (tsp : TSProc) (i j : Nat) : Doc :=
  (getFields tsp i).foldl (fun d f => dset d f (.num 0)) (getDoc tsp i j)

/-- Models `getTimestamp(i, j).toISOString()`: the raw value of the timestamp
field. The specification treats timestamp parsing and ISO formatting as an
external date library; parse-then-format applied to equal raw values gives
equal ISO strings, and equality of these strings is all `isHomogeneous`
compares, so the composite is modelled as the identity on the raw value. -/
def getTimestampISO (tsp : TSProc) (i j : Nat) : JSVal :=
  dget (getDoc tsp i j) (getTimestampField tsp i)

/-- `isHomogeneous` (tsproc.js, lines 594-634). A single series is always
homogeneous. Several series are homogeneous when their sizes are all equal
(one unique value among the sizes) and the timestamps sampled at the three
drawn indices, across all series, yield between 1 and 3 unique ISO strings.
The push loop over the series is embedded as a flatMap producing the same list
of 3N sampled dates. -/
def isHomogeneous (tsp : TSProc) (r : Draw) : Bool :=
  let nb_ts := getNbTS tsp
  if nb_ts = 1 then true
  else
    let sizes := (List.range nb_ts).map (getTSSize tsp)
    if sizes.dedup.length = 1 then
      let dates := (List.range nb_ts).flatMap (fun i =>
        [getTimestampISO tsp i r.i1, getTimestampISO tsp i r.i2, getTimestampISO tsp i r.i3])
      let nb_uniques := dates.dedup.length
      decide (0 < nb_uniques ∧ nb_uniques < 4)
    else false

/-- The index sequence of the JS counting loop `for (j = start; j < size; j += step)`.
For `step = 0` the JS loop would not terminate; every caller in the source
reaches it with `step ≥ 1` (and the claims assume so), and the model returns
the empty sequence there. -/
def jloop (size step j : Nat) : List Nat :=
  if _h : j < size ∧ 0 < step then j :: jloop size step (j + step) else []
termination_by size - j
decreasing_by omega

/-- The inner window index list `for (k = j; k < j + skipsize; k++) { if (k >= ts_size) break; … }`
shared by reduceSum and reduceAvg: the indices j, …, j+skipsize-1 truncated at
the series end. -/
def windowIdx (size j skipsize : Nat) : List Nat :=
  ((List.range skipsize).map (j + ·)).takeWhile (fun k => k < size)

/-- The accumulation loop shared verbatim by `reduceSum` and `reduceAvg`
(tsreductions.js): starting from `getEmptyDoc(i, j)`, fold the documents of
the window over each declared field, adding `doc[field]` into the
accumulator field. -/
def sumWindow (tsp : TSProc) (i j skipsize : Nat) : Doc :=
  (windowIdx (getTSSize tsp i) j skipsize).foldl
    (fun acc k => (getFields tsp i).foldl
      (fun d f => dset d f (jsAdd (dget d f) (dget (getDoc tsp i k) f))) acc)
    (getEmptyDoc tsp i j)

/-- The value of the loop counter difference `k - j` after the inner window
loop: the actual number of documents folded into the window starting at `j`
(which is `min skipsize (ts_size - j)`). -/
def windowCount (size j skipsize : Nat) : Nat := min skipsize (size - j)

/-- The division loop of `reduceAvg`: every declared field of the accumulated
document divided by the window document count `k - j`. -/
def divWindow (tsp : TSProc) (i : Nat) (cnt : Nat) (d : Doc) : Doc :=
  (getFields tsp i).foldl (fun d f => dset d f (jsDiv (dget d f) (.num cnt))) d

/-- `reduceSkip` (tsreductions.js, lines 23-45): keep the first document of
every window. Returns `none` for the JS `return null` taken when the set is
not homogeneous. -/
def reduceSkip (tsp : TSProc) (r : Draw) (skipsize : Nat) : Option (List (List Doc)) :=
  if isHomogeneous tsp r then
    some ((List.range (getNbTS tsp)).map (fun i =>
      (jloop (getTSSize tsp i) skipsize 0).map (fun j => getDoc tsp i j)))
  else none

/-- `reduceSum` (tsreductions.js, lines 60-98): one accumulated document per
window. -/
def reduceSum (tsp : TSProc) (r : Draw) (skipsize : Nat) : Option (List (List Doc)) :=
  if isHomogeneous tsp r then
    some ((List.range (getNbTS tsp)).map (fun i =>
      (jloop (getTSSize tsp i) skipsize 0).map (fun j => sumWindow tsp i j skipsize)))
  else none

/-- `reduceAvg` (tsreductions.js, lines 113-157): the same accumulation loop
as `reduceSum`, followed by the division of every declared field by the
actual count `k - j` of documents folded into the window. -/
def reduceAvg (tsp : TSProc) (r : Draw) (skipsize : Nat) : Option (List (List Doc)) :=
  if isHomogeneous tsp r then
    some ((List.range (getNbTS tsp)).map (fun i =>
      (jloop (getTSSize tsp i) skipsize 0).map (fun j =>
        divWindow tsp i (windowCount (getTSSize tsp i) j skipsize)
          (sumWindow tsp i j skipsize))))
  else none

/-- The inner loop of `reduceMax`: starting from the window head
`getDoc(i, j)`, scan `k = j+1, …, j+skipsize-1` (truncated at the series end)
and keep the document with the strictly larger target field (ties keep the
earlier document). -/
def maxWindow (tsp : TSProc) (i j skipsize : Nat) (tf : Field) : Doc :=
  ((((List.range (skipsize - 1)).map (j + 1 + ·)).takeWhile (fun k => k < getTSSize tsp i))).foldl
    (fun m k => if jsLt (dget m tf) (dget (getDoc tsp i k) tf) then getDoc tsp i k else m)
    (getDoc tsp i j)

/-- The inner loop of `reduceMin`, symmetric with `maxWindow`. -/
def minWindow (tsp : TSProc) (i j skipsize : Nat) (tf : Field) : Doc :=
  ((((List.range (skipsize - 1)).map (j + 1 + ·)).takeWhile (fun k => k < getTSSize tsp i))).foldl
    (fun m k => if jsLt (dget (getDoc tsp i k) tf) (dget m tf) then getDoc tsp i k else m)
    (getDoc tsp i j)

/-- JS truthiness of the optional `target_field` argument: absent (undefined)
and the empty string are falsy. -/
def optFieldTruthy : Option Field → Bool
  | none => false
  | some f => f != ""

/-- `reduceMax` (tsreductions.js, lines 172-209): guarded by
`this.isHomogeneous() && target_field`; when the guard fails the function
returns null (`none`), which the caller silently ignores. -/
def reduceMax (tsp : TSProc) (r : Draw) (skipsize : Nat) (target_field : Option Field) :
    Option (List (List Doc)) :=
  if isHomogeneous tsp r ∧ optFieldTruthy target_field then
    some ((List.range (getNbTS tsp)).map (fun i =>
      (jloop (getTSSize tsp i) skipsize 0).map (fun j =>
        maxWindow tsp i j skipsize (target_field.getD ""))))
  else none

/-- `reduceMin` (tsreductions.js, lines 224-261), symmetric with `reduceMax`. -/
def reduceMin (tsp : TSProc) (r : Draw) (skipsize : Nat) (target_field : Option Field) :
    Option (List (List Doc)) :=
  if isHomogeneous tsp r ∧ optFieldTruthy target_field then
    some ((List.range (getNbTS tsp)).map (fun i =>
      (jloop (getTSSize tsp i) skipsize 0).map (fun j =>
        minWindow tsp i j skipsize (target_field.getD ""))))
  else none

/-- Whether `parseFloat` of the string is NaN: after trimming spaces and sign
characters, the string must begin with a digit or a decimal point to parse
(the exotic accepted forms such as Infinity do not occur in the verified
inputs). Implemented on the character list, which the kernel can evaluate. -/
def parseFloatIsNaN (s : String) : Bool :=
  match (s.data.dropWhile (fun c => c = ' ')).dropWhile (fun c => c = '+' || c = '-') with
  | [] => true
  | c :: _ => !(c.isDigit || c = '.')

/-- `isFieldNominal` (tsproc.js): examines the field value of the first
document of the series; a truthy value is nominal when `parseFloat` of it is
NaN (numbers never are); a falsy value (0, empty string, undefined) makes the
JS function return undefined, i.e. not nominal. -/
def isFieldNominal (tsp : TSProc) (i : Nat) (f : Field) : Bool :=
  match dget (getDoc tsp i 0) f with
  | .num _ => false
  | .str s => if s = "" then false else parseFloatIsNaN s
  | .undefined => false
  | .nan => true

/-- `isNominal` (tsproc.js, lines 820-844): whether any declared field of any
series is nominal. -/
def isNominal (tsp : TSProc) : Bool :=
  (List.range (getNbTS tsp)).any (fun i => (getFields tsp i).any (fun f => isFieldNominal tsp i f))

/-- The reduction dispatch `ReduceFunc[type].call(this, skipsize, target_field)`
in ReduceEnum order (skip, sum, avg, max, min); an index outside the table
would make the JS call of an undefined function throw - it is unreachable
from the pipeline and modelled as a null reduction. -/
def ReduceFunc (tsp : TSProc) (r : Draw) (type skipsize : Nat)
    (target_field : Option Field) : Option (List (List Doc)) :=
  match type with
  | 0 => reduceSkip tsp r skipsize
  | 1 => reduceSum tsp r skipsize
  | 2 => reduceAvg tsp r skipsize
  | 3 => reduceMax tsp r skipsize target_field
  | 4 => reduceMin tsp r skipsize target_field
  | _ => none

/-- `undersample` (tsproc.js, lines 1135-1166). `r` is the random draw
consumed by the one `isHomogeneous` call made by the selected reduction.
Returns the updated processor state and the error value passed to the
callback (`none` is the JS `callback(null, …)`). A falsy `type` (0) is
normalized to the skip policy, which is what the dispatch maps 0 to anyway; a
reduction returning null leaves the stored timeseries untouched. -/
def undersample (tsp : TSProc) (r : Draw) (type skipsize : Nat)
    (target_field : Option Field) : TSProc × Option String :=
  if 1 < skipsize then
    if isNominal tsp ∧ type ≠ 0 then
      (tsp, some "Only the skip can be applied to the nominal timeseries")
    else
      match ReduceFunc tsp r type skipsize target_field with
      | some ts2 => ({ tsp with timeseries := ts2 }, none)
      | none => (tsp, none)
  else (tsp, none)

/-- The fixed canonical timestamp field name (`TIMESTAMP_FIELD` in
tsproc.js). -/
def TIMESTAMP_FIELD : Field := "time"

/-- `underscore.extend(dst, src)`: every own property of `src` assigned onto
`dst` in property order. -/
def jsExtend (dst src : Doc) : Doc :=
  src.foldl (fun d p => dset d p.1 p.2) dst

/-- `mergeConfigs` (tsproc.js, lines 1701-1732): under a fresh homogeneity
draw, replace the config array by a single entry whose timestamp descriptor
is the first entry of the old config with its name rewritten to the canonical
TIMESTAMP_FIELD, and whose fields are the concatenation of all the old
per-series field lists. -/
def mergeConfigs (tsp : TSProc) (r : Draw) : TSProc :=
  if isHomogeneous tsp r then
    { tsp with config := [{ tsName := TIMESTAMP_FIELD,
                            tsFormat := (tsp.config.getD 0 default).tsFormat,
                            fields := tsp.config.foldl (fun acc c => acc ++ c.fields) [] }] }
  else tsp

/-- `merge` (tsproc.js, lines 1019-1067). `r1` is the draw of the
`isHomogeneous` call made by merge itself, `r2` the draw of the nested call
made by `mergeConfigs`. Returns the updated state and the error value passed
to the callback (the source always passes null). A single series is returned
as is; a non-homogeneous set falls through to `callback(null, getTS())` with
the state untouched. -/
def merge (tsp : TSProc) (r1 r2 : Draw) : TSProc × Option String :=
  if getNbTS tsp = 1 then (tsp, none)
  else if isHomogeneous tsp r1 then
    let ts_size := (tsp.timeseries.getD 0 []).length
    let merged := (List.range ts_size).map (fun j =>
      let time := dget (getDoc tsp 0 j) (getTimestampField tsp 0)
      let fused := (List.range (getNbTS tsp)).foldl
        (fun d i => ddel (jsExtend d (getDoc tsp i j)) (getTimestampField tsp i)) []
      dset fused TIMESTAMP_FIELD time)
    (mergeConfigs { tsp with timeseries := [merged] } r2, none)
  else (tsp, none)

/-- `renameField` (tsproc.js, lines 699-722): for every document of the
series, the value of `field_name` is saved, the property deleted, and the
saved value assigned to `new_name` (appending it in property order); inside
the same per-document loop the config timestamp name of the series is
unconditionally overwritten with `new_name`, so the config write happens
exactly when the series has at least one document. -/
def renameField (tsp : TSProc) (ts_index : Nat) (field_name new_name : Field) : TSProc :=
  { timeseries := tsp.timeseries.set ts_index
      ((tsp.timeseries.getD ts_index []).map (fun d =>
        dset (ddel d field_name) new_name (dget d field_name))),
    config := if 0 < getTSSize tsp ts_index then
        tsp.config.modify (fun c => { c with tsName := new_name }) ts_index
      else tsp.config }

/-- The rational value of the 4-decimal string produced by `toFixed(4)`. -/
def round4 (q : ℚ) : ℚ := (round (q * 10000) : ℤ) / 10000

/-- `getCorrelationCoef` (tsproc.js, lines 2116-2150). `sqrtFn` stands for
the external `Math.sqrt`; the verified claims constrain it only on the
perfect square it is applied to. Both arrays empty-checked (the JS null
result is `none`); the summation loop runs over the indices of the first
array, reads past the end of the second (excluded by the claims, which take
equal lengths) being modelled as 0. -/
def getCorrelationCoef (sqrtFn : ℚ → ℚ) (array1 array2 : List ℚ) : Option ℚ :=
  if 0 < array1.length ∧ 0 < array2.length then
    let n : ℚ := (array1.length : ℚ)
    let sum_xy := ((List.range array1.length).map
      (fun i => array1.getD i 0 * array2.getD i 0)).sum
    let sum_x := ((List.range array1.length).map (fun i => array1.getD i 0)).sum
    let sum_y := ((List.range array1.length).map (fun i => array2.getD i 0)).sum
    let sum_x2 := ((List.range array1.length).map
      (fun i => array1.getD i 0 * array1.getD i 0)).sum
    let sum_y2 := ((List.range array1.length).map
      (fun i => array2.getD i 0 * array2.getD i 0)).sum
    some (round4 ((n * sum_xy - sum_x * sum_y) /
      sqrtFn ((n * sum_x2 - sum_x * sum_x) * (n * sum_y2 - sum_y * sum_y))))
  else none

/-- The external date parser `moment.utc(string, null, true)` on a string
input, abstracted (as the specification directs) to a partial parse onto a
totally ordered integer time axis; the concrete stand-in parser (decimal
digit strings) keeps the model executable. `none` is an invalid moment. -/
def momentParse (s : String) : Option ℤ :=
  match s.data with
  | [] => none
  | cs => if cs.all (fun c => c.isDigit)
      then some (cs.foldl (fun a c => a * 10 + ((c.toNat - 48 : Nat) : ℤ)) 0)
      else none

/-- `moment.utc(v, null, true)` on an arbitrary document property value: an
undefined input falls back to the current clock (valid; the clock instant is
modelled as a fixed value since no claim depends on it), a number is a valid
millisecond epoch, a string parses or is invalid, NaN is invalid. -/
def momentOfVal : JSVal → Option ℤ
  | .undefined => some 0
  | .num q => some ⌊q⌋
  | .str s => momentParse s
  | .nan => none

/-- `moment.diff`: the signed difference of two moments; any invalid operand
gives NaN (`none`). -/
def optDiff : Option ℤ → Option ℤ → Option ℤ
  | some a, some b => some (a - b)
  | _, _ => none

/-- JS `x < 0` where `x` may be NaN (every comparison with NaN is false). -/
def nanLt0 : Option ℤ → Bool
  | some v => decide (v < 0)
  | none => false

/-- JS `x > 0` where `x` may be NaN. -/
def nanGt0 : Option ℤ → Bool
  | some v => decide (0 < v)
  | none => false

/-- JS `x == 0` where `x` may be NaN. -/
def nanEq0 : Option ℤ → Bool
  | some v => decide (v = 0)
  | none => false

/-- The rational value of a possibly-NaN moment difference as it enters the
fractional index arithmetic of `smooth`; the NaN case is unreachable in the
verified claims (their dates are all valid). -/
def qOfDiff : Option ℤ → ℚ
  | some v => (v : ℚ)
  | none => 0

/-- Property read `s[f]` on a JS primitive string: undefined for any
non-index property name such as a timestamp field name. -/
def strProp (_s : String) (_f : Field) : JSVal := .undefined

/-- The `description` argument of the tsinterp constructor. -/
structure InterpDesc where
  timestamp_field : Option Field
  fields : Option (List FieldConf)
  type : Option ℤ
  clip_type : Option String
  deriving DecidableEq, Inhabited

/-- The private state of a constructed tsinterp instance. -/
structure TsinterpState where
  timeseries : List Doc
  nb_ts : Nat
  timestamp_field : Field
  fields : List FieldConf
  interp_type : String
  values_array : List (List JSVal)
  dates_array : List (Option ℤ)
  learned : Bool
  deriving DecidableEq, Inhabited

/-- `extractValues` (tsinterp.js): the per-document vectors of declared field
values, in declared order. -/
def extractValues (ts : List Doc) (fields : List FieldConf) : List (List JSVal) :=
  ts.map (fun d => fields.map (fun f => dget d f.name))

/-- `extractDates` (tsinterp.js): the per-document moment of the timestamp
field. -/
def extractDates (ts : List Doc) (tsf : Field) : List (Option ℤ) :=
  ts.map (fun d => momentOfVal (dget d tsf))

/-- Modelled from the spec: the Smooth.js curve constructor (`lib/smooth.js`,
the vendored Smooth.js module, is not under src/). Per the specification,
curve construction raises on malformed numeric input and the pipeline then
flags the series as not learned; modelled as requiring every sample vector
entry to be a number. -/
def smoothLearnOk (values : List (List JSVal)) : Bool :=
  values.all (fun v => v.all (fun x => match x with | .num _ => true | _ => false))

/-- Modelled from the spec: evaluation of the learned Smooth.js interpolant
(`lib/smooth.js` is not under src/) at a possibly fractional position, under
the fixed zero clip policy: any position outside [0, length-1] yields an
all-zero value vector; an integer in-range position returns that sample's
stored vector exactly (all four methods - linear, cubic, lanczos, nearest -
interpolate through the samples); the value at fractional interior positions
depends on the method and is abstracted by the `interior` argument. -/
def smoothEval (interior : ℚ → List JSVal) (values : List (List JSVal)) (pos : ℚ) : List JSVal :=
  if pos < 0 ∨ ((values.length : ℚ) - 1) < pos then
    List.replicate (values.headD []).length (.num 0)
  else if pos.den = 1 then values.getD pos.num.toNat []
  else interior pos

/-- The `tsinterp` constructor (tsinterp.js, lines 47-106). Returns the
constructed state (none when a validation check aborts construction) and the
error value reported through the callback. The timestamp-validation loop is
embedded exactly as written in the source: `for (var document in timeseries)`
binds `document` to the INDEX of the document - a string - so the value
checked is `document[description.timestamp_field]`, a property of that index
string, which is undefined, and `moment.utc(undefined, null, true)` falls
back to the (valid) current clock; the check can therefore never fail,
whatever the documents hold. -/
def tsinterpInit (timeseries : List Doc) (description : InterpDesc) :
    Option TsinterpState × Option String :=
  if timeseries.length < 2 then
    (none, some "timeseries should have multiple documents")
  else
    match description.timestamp_field, description.fields with
    | some tsf, some flds =>
      if (List.range timeseries.length).any
          (fun i => !(momentOfVal (strProp (toString i) tsf)).isSome) then
        (none, some "Timestamps are not valid")
      else
        let ty : Nat := match description.type with
          | some t => if 0 ≤ t ∧ t ≤ 3 then t.toNat else 0
          | none => 0
        let values := extractValues timeseries flds
        let learned := smoothLearnOk values
        (some { timeseries := timeseries,
                nb_ts := timeseries.length,
                timestamp_field := tsf,
                fields := flds,
                interp_type := ["linear", "cubic", "lanczos", "nearest"].getD ty "linear",
                values_array := values,
                dates_array := extractDates timeseries tsf,
                learned := learned },
         if learned then none else some "LearnError")
    | _, _ => (none, some "Description is invalid")

/-- `createDoc` (tsinterp.js): a document whose timestamp field holds the
literal requested date string and whose declared fields hold, in declared
order, the entries of the interpolated value vector (a vector shorter than
the field list reads as undefined past its end). -/
def createDoc (tsf : Field) (flds : List FieldConf) (time : String) (values : List JSVal) : Doc :=
  flds.enum.foldl (fun (d : Doc) p => dset d p.2.name (values.getD p.1 .undefined))
    (dset [] tsf (.str time))

/-- The bracket-scanning loop of `smooth`:
`do { diff = this._dates_array[i].diff(moment_date); i++ } while (diff < 0)`,
returning the final values of `i` and `diff`. The loop is cut off past the
end of the array, where the JS code would throw on an undefined entry; under
the min/max guards of `smooth` the loop always exits in range. -/
def scanLoop (dates : List (Option ℤ)) (t : ℤ) (i : Nat) : Nat × Option ℤ :=
  if _h : nanLt0 (optDiff (dates.getD i none) (some t)) ∧ i < dates.length
  then scanLoop dates t (i + 1)
  else (i + 1, optDiff (dates.getD i none) (some t))
termination_by dates.length - i
decreasing_by omega

/-- `tsinterp.prototype.smooth` (tsinterp.js, lines 136-207). Returns the
(error, document) pair passed to the callback. `interior` abstracts the
method-specific fractional interpolation of the learned curve. The absent
date argument is `none` (the source treats the empty string the same way; no
claim distinguishes them). -/
def tsinterpSmooth (st : TsinterpState) (interior : ℚ → List JSVal) (date : Option String) :
    Option String × Option Doc :=
  match date with
  | none => (some "Date is unset", none)
  | some d =>
    match momentParse d with
    | none => (some "Date is not valid", none)
    | some t =>
      if st.learned = false then (some "Datapoints are not learned yet", none)
      else
        let min_date := st.dates_array.getD 0 none
        if nanGt0 (optDiff min_date (some t)) then
          (none, some (createDoc st.timestamp_field st.fields d
            (smoothEval interior st.values_array (-1))))
        else
          let max_date := st.dates_array.getD (st.nb_ts - 1) none
          if nanLt0 (optDiff max_date (some t)) then
            (none, some (createDoc st.timestamp_field st.fields d
              (smoothEval interior st.values_array (st.nb_ts : ℚ))))
          else
            let scanned := scanLoop st.dates_array t 0
            if nanEq0 scanned.2 then
              (none, some (createDoc st.timestamp_field st.fields d
                (smoothEval interior st.values_array ((scanned.1 : ℚ) - 1))))
            else
              let delta := optDiff (st.dates_array.getD (scanned.1 - 1) none)
                (st.dates_array.getD (scanned.1 - 2) none)
              let idx : ℚ := (scanned.1 : ℚ) - 2 +
                (qOfDiff delta - qOfDiff scanned.2) / qOfDiff delta
              (none, some (createDoc st.timestamp_field st.fields d
                (smoothEval interior st.values_array idx)))

end Tsproc

namespace Tsproc

/-- A small homogeneous example: one series of four documents (the reduceSkip
scenario from the specification). -/
def exSingle : TSProc :=
  { timeseries := [[[("a", .num 21.07), ("year", .str "2012")],
                    [("a", .num 23.23), ("year", .str "2013")],
                    [("a", .num 24.24), ("year", .str "2014")],
                    [("a", .num 25.25), ("year", .str "2015")]]],
    config := [{ tsName := "year", tsFormat := "YYYY", fields := [⟨"a", none⟩] }] }

/-- Two series of equal length over the same timestamp array. -/
def exPair : TSProc :=
  { timeseries := [[[("a", .num 21.07), ("year", .str "2012")],
                    [("a", .num 23.23), ("year", .str "2013")],
                    [("a", .num 24.24), ("year", .str "2014")]],
                   [[("b", .num 26.42), ("year", .str "2012")],
                    [("b", .num 24.11), ("year", .str "2013")],
                    [("b", .num 22.11), ("year", .str "2014")]]],
    config := [{ tsName := "year", tsFormat := "YYYY", fields := [⟨"a", none⟩] },
               { tsName := "year", tsFormat := "YYYY", fields := [⟨"b", none⟩] }] }

/-- The C2 evaluation input: a two-document timeseries whose timestamps are
both unparseable under the stand-in parser. -/
def c2series : List Doc :=
  [[("year", .str "garbage"), ("a", .num 1)],
   [("year", .str "alsogarbage"), ("a", .num 2)]]

/-- The matching tsinterp description (linear interpolation). -/
def c2desc : InterpDesc :=
  { timestamp_field := some "year", fields := some [⟨"a", none⟩], type := some 0,
    clip_type := none }

/-- A concrete learned interpolant state over two samples, used by the
evaluation witnesses: timestamps 100 and 200, one declared field a with
stored values 1 and 2. -/
def exInterp : TsinterpState :=
  { timeseries := [[("year", .str "100"), ("a", .num 1)],
                   [("year", .str "200"), ("a", .num 2)]],
    nb_ts := 2,
    timestamp_field := "year",
    fields := [⟨"a", none⟩],
    interp_type := "linear",
    values_array := [[.num 1], [.num 2]],
    dates_array := [some 100, some 200],
    learned := true }

/-- A SeriesSet that is not homogeneous for any draw (its two series have
different lengths) and that carries a nominal field (the alphabetic value of
field a). -/
def exBad : TSProc :=
  { timeseries := [[[("a", .str "abc"), ("year", .str "2012")],
                    [("a", .str "xyz"), ("year", .str "2013")]],
                   [[("b", .num 1), ("year", .str "2012")]]],
    config := [{ tsName := "year", tsFormat := "YYYY", fields := [⟨"a", none⟩] },
               { tsName := "year", tsFormat := "YYYY", fields := [⟨"b", none⟩] }] }

end Tsproc

namespace Tsproc

/-- A nonempty list whose elements are all equal to `a` dedups to `[a]`. -/
theorem dedup_eq_single_of_all_eq {α : Type} [DecidableEq α] (l : List α) (a : α)
    (hne : l ≠ []) (hall : ∀ x ∈ l, x = a) : l.dedup = [a] := by
  induction l with
  | nil => exact absurd rfl hne
  | cons b t ih =>
    have hb : b = a := hall b (List.mem_cons_self b t)
    subst hb
    cases t with
    | nil => simp
    | cons c t' =>
      have hc : c = b := hall c (by simp)
      have ht : (c :: t').dedup = [b] := by
        exact ih (by simp) (fun x hx => hall x (List.mem_cons_of_mem _ hx))
      have hmem : b ∈ c :: t' := by
        subst hc; exact List.mem_cons_self c t'
      rw [List.dedup_cons_of_mem hmem, ht]

/-- A list whose elements all lie in a three-element list dedups to length at
most 3. -/
theorem dedup_length_le_three {α : Type} [DecidableEq α] (l : List α) (a b c : α)
    (h : ∀ x ∈ l, x ∈ [a, b, c]) : l.dedup.length ≤ 3 := by
  have hnodup : l.dedup.Nodup := l.nodup_dedup
  have hsub : l.dedup.toFinset ⊆ ({a, b, c} : Finset α) := by
    intro x hx
    have hx' : x ∈ l := List.mem_dedup.mp (List.mem_toFinset.mp hx)
    have := h x hx'
    simp only [List.mem_cons, List.mem_singleton] at this
    simp only [Finset.mem_insert, Finset.mem_singleton]
    tauto
  have hcard : l.dedup.toFinset.card = l.dedup.length := List.toFinset_card_of_nodup hnodup
  have h3 : ({a, b, c} : Finset α).card ≤ 3 := by
    apply le_trans (Finset.card_insert_le _ _)
    have := Finset.card_insert_le b ({c} : Finset α)
    simp only [Finset.card_singleton] at this
    omega
  have := Finset.card_le_card hsub
  omega

/-- C9: `isHomogeneous` returns true for every set of exactly one series; and
for every set of more than one series of equal length L whose sampled
timestamps agree with the first series at every position, it returns true for
every possible outcome of the three uniform index draws on [0, L). -/
theorem isHomogeneous_true_of_aligned (tsp : TSProc) (r : Draw) (L : Nat) :
    (getNbTS tsp = 1 → isHomogeneous tsp r = true) ∧
    (1 < getNbTS tsp →
      (∀ i < getNbTS tsp, getTSSize tsp i = L) →
      (∀ i < getNbTS tsp, ∀ j < L, getTimestampISO tsp i j = getTimestampISO tsp 0 j) →
      r.i1 < L → r.i2 < L → r.i3 < L →
      isHomogeneous tsp r = true) := by
  constructor
  · intro h1
    unfold isHomogeneous
    simp [h1]
  · intro hgt hsizes halign h1 h2 h3
    unfold isHomogeneous
    have hne1 : ¬ (getNbTS tsp = 1) := by omega
    simp only [hne1, if_false]
    have hsizes' : ((List.range (getNbTS tsp)).map (getTSSize tsp)).dedup = [L] := by
      apply dedup_eq_single_of_all_eq _ L
      · simp only [ne_eq, List.map_eq_nil_iff, List.range_eq_nil]
        omega
      · intro x hx
        obtain ⟨i, hi, hxi⟩ := List.mem_map.mp hx
        rw [List.mem_range] at hi
        rw [← hxi]
        exact hsizes i hi
    rw [hsizes']
    simp only [List.length_singleton, if_true]
    set dates := (List.range (getNbTS tsp)).flatMap (fun i =>
      [getTimestampISO tsp i r.i1, getTimestampISO tsp i r.i2, getTimestampISO tsp i r.i3])
      with hdates
    have hmem : ∀ x ∈ dates,
        x ∈ [getTimestampISO tsp 0 r.i1, getTimestampISO tsp 0 r.i2, getTimestampISO tsp 0 r.i3] := by
      intro x hx
      rw [hdates, List.mem_flatMap] at hx
      obtain ⟨i, hi, hxi⟩ := hx
      rw [List.mem_range] at hi
      simp only [List.mem_cons, List.not_mem_nil, or_false] at hxi ⊢
      rcases hxi with h | h | h
      · left; rw [h]; exact halign i hi r.i1 h1
      · right; left; rw [h]; exact halign i hi r.i2 h2
      · right; right; rw [h]; exact halign i hi r.i3 h3
    have hub : dates.dedup.length ≤ 3 := dedup_length_le_three dates _ _ _ hmem
    have hnonempty : dates ≠ [] := by
      rw [hdates]
      intro hcon
      have h0 : (0 : Nat) ∈ List.range (getNbTS tsp) := List.mem_range.mpr (by omega)
      have : getTimestampISO tsp 0 r.i1 ∈ ([] : List JSVal) := by
        rw [← hcon]
        rw [List.mem_flatMap]
        exact ⟨0, h0, by simp⟩
      simp at this
    have hlb : 0 < dates.dedup.length := by
      rcases Nat.eq_zero_or_pos dates.dedup.length with h | h
      · exfalso
        have : dates.dedup = [] := List.eq_nil_of_length_eq_zero h
        rw [List.dedup_eq_nil] at this
        exact hnonempty this
      · exact h
    simp only [decide_eq_true_eq]
    omega

/-- Closed witness for the C9 theorem: the single-series example and the
aligned two-series example are homogeneous at concrete draws. -/
theorem isHomogeneous_true_of_aligned_witness :
    isHomogeneous exSingle ⟨0, 2, 1⟩ = true ∧ isHomogeneous exPair ⟨2, 0, 1⟩ = true := by
  constructor
  · exact (isHomogeneous_true_of_aligned exSingle ⟨0, 2, 1⟩ 4).1 rfl
  · exact (isHomogeneous_true_of_aligned exPair ⟨2, 0, 1⟩ 3).2 (by decide)
      (by decide) (by decide) (by decide) (by decide) (by decide)

theorem find_map_dset (d : Doc) (f : Field) (v : JSVal)
    (h : d.any (fun p => p.1 == f) = true) :
    (d.map (fun p => if p.1 == f then (f, v) else p)).find? (fun p => p.1 == f) =
      some (f, v) := by
  induction d with
  | nil => simp at h
  | cons p t ih =>
    simp only [List.any_cons, Bool.or_eq_true] at h
    simp only [List.map_cons]
    by_cases hp : (p.1 == f) = true
    · rw [if_pos hp, List.find?_cons_of_pos _ (by simp)]
    · rw [if_neg hp, List.find?_cons_of_neg _ (by simpa using hp)]
      exact ih (h.resolve_left hp)

theorem find_map_dset_ne (d : Doc) (f g : Field) (v : JSVal) (h : g ≠ f) :
    (d.map (fun p => if p.1 == f then (f, v) else p)).find? (fun p => p.1 == g) =
      d.find? (fun p => p.1 == g) := by
  induction d with
  | nil => simp
  | cons p t ih =>
    simp only [List.map_cons]
    by_cases hp : (p.1 == f) = true
    · rw [if_pos hp]
      have hpf : p.1 = f := by simpa using hp
      have h1 : (((f, v) : Field × JSVal).1 == g) = false := by
        simp only [beq_eq_false_iff_ne, ne_eq]
        exact fun hc => h hc.symm
      have h2 : (p.1 == g) = false := by
        rw [hpf]
        simp only [beq_eq_false_iff_ne, ne_eq]
        exact fun hc => h hc.symm
      rw [List.find?_cons_of_neg _ (by simp [h1]), List.find?_cons_of_neg _ (by simp [h2]), ih]
    · rw [if_neg hp]
      rw [List.find?_cons, List.find?_cons]
      by_cases hq : (p.1 == g) = true
      · simp only [hq]
      · simp only [Bool.not_eq_true] at hq
        simp only [hq, ih]

/-- Reading back the field just written. -/
theorem dget_dset_self (d : Doc) (f : Field) (v : JSVal) : dget (dset d f v) f = v := by
  rw [dset]
  by_cases h : d.any (fun p => p.1 == f) = true
  · rw [if_pos h]
    simp only [dget, find_map_dset d f v h]
  · rw [if_neg h]
    have hnone : d.find? (fun p => p.1 == f) = none := by
      rw [List.find?_eq_none]
      intro p hp hc
      exact h (List.any_eq_true.mpr ⟨p, hp, hc⟩)
    simp only [dget, List.find?_append, hnone, Option.none_or]
    rw [List.find?_cons]
    simp

/-- Writing one field leaves the others unchanged. -/
theorem dget_dset_ne (d : Doc) (f g : Field) (v : JSVal) (h : g ≠ f) :
    dget (dset d f v) g = dget d g := by
  rw [dset]
  by_cases hany : d.any (fun p => p.1 == f) = true
  · rw [if_pos hany]
    simp only [dget, find_map_dset_ne d f g v h]
  · rw [if_neg hany]
    simp only [dget, List.find?_append]
    have hlast : ([(f, v)] : Doc).find? (fun p => p.1 == g) = none := by
      rw [List.find?_eq_none]
      intro p hp hc
      simp only [List.mem_singleton] at hp
      rw [hp] at hc
      have hfg : f = g := by simpa using hc
      exact h hfg.symm
    rw [hlast]
    cases d.find? (fun p => p.1 == g) <;> simp

/-- A deleted field reads as undefined. -/
theorem dget_ddel_self (d : Doc) (f : Field) : dget (ddel d f) f = .undefined := by
  have : (ddel d f).find? (fun p => p.1 == f) = none := by
    rw [List.find?_eq_none]
    intro p hp hc
    rw [ddel, List.mem_filter] at hp
    rw [hc] at hp
    simp at hp
  simp only [dget, this]

/-- Deleting one field leaves the others unchanged. -/
theorem dget_ddel_ne (d : Doc) (f g : Field) (h : g ≠ f) :
    dget (ddel d f) g = dget d g := by
  rw [dget, dget, ddel]
  induction d with
  | nil => simp
  | cons p t ih =>
    by_cases hp : (p.1 == f) = true
    · have hg : (p.1 == g) = false := by
        have : p.1 = f := by simpa using hp
        rw [this]
        simp only [beq_eq_false_iff_ne, ne_eq]
        exact fun hc => h hc.symm
      rw [List.filter_cons_of_neg (by simp [hp]), List.find?_cons]
      simp only [hg, ih]
    · rw [List.filter_cons_of_pos (by simp [hp]), List.find?_cons, List.find?_cons]
      by_cases hq : (p.1 == g) = true
      · simp only [hq]
      · simp only [Bool.not_eq_true] at hq
        simp only [hq, ih]

/-- Reading a field out of a fold of writes: the last write to that field
wins; if the field was never written the base document is read. -/
theorem dget_foldl_dset {β : Type} (l : List β) (key : β → Field) (val : β → JSVal)
    (d0 : Doc) (f : Field) :
    dget (l.foldl (fun d p => dset d (key p) (val p)) d0) f =
      match l.reverse.find? (fun p => key p == f) with
      | some p => val p
      | none => dget d0 f := by
  induction l using List.reverseRecOn with
  | nil => simp
  | append_singleton l a ih =>
    rw [List.foldl_append, List.reverse_append]
    simp only [List.foldl_cons, List.foldl_nil, List.reverse_singleton, List.singleton_append]
    rw [List.find?_cons]
    by_cases ha : (key a == f) = true
    · have haf : key a = f := by simpa using ha
      simp only [ha]
      rw [← haf, dget_dset_self]
    · have hne : f ≠ key a := fun hc => ha (by simp [hc])
      simp only [Bool.not_eq_true] at ha
      simp only [ha]
      rw [dget_dset_ne _ _ _ _ hne, ih]

/-- Indexing a map over a range. -/
theorem getD_map_range {α : Type} (c : Nat) (f : Nat → α) (dflt : α) (i : Nat) (hi : i < c) :
    (((List.range c).map f).getD i dflt) = f i := by
  rw [List.getD_eq_getElem?_getD, List.getElem?_map, List.getElem?_range hi]
  rfl

/-- The counting loop `for (j = start; j < size; j += step)` visits exactly
the ceil((size - start)/step) indices start, start+step, …. -/
theorem jloop_eq (size step : Nat) (hstep : 0 < step) (j : Nat) :
    jloop size step j =
      (List.range ((size - j + step - 1) / step)).map (fun w => j + w * step) := by
  rw [jloop]
  by_cases hj : j < size
  · rw [dif_pos ⟨hj, hstep⟩, jloop_eq size step hstep (j + step)]
    have hcount : (size - j + step - 1) / step = ((size - (j + step) + step - 1) / step) + 1 := by
      rcases le_or_lt (size - j) step with hle | hlt
      · have h1 : size - (j + step) = 0 := by omega
        have h2 : size - j + step - 1 = (size - j - 1) + step := by omega
        rw [h1, h2, Nat.add_div_right _ hstep, Nat.div_eq_of_lt (by omega),
          Nat.div_eq_of_lt (by omega)]
      · have h1 : size - (j + step) + step - 1 = size - j - 1 := by omega
        have h2 : size - j + step - 1 = (size - j - 1) + step := by omega
        rw [h1, h2, Nat.add_div_right _ hstep]
    rw [hcount, List.range_succ_eq_map, List.map_cons, List.map_map]
    simp only [Nat.add_zero, Nat.zero_mul, Nat.add_zero]
    congr 1
    apply List.map_congr_left
    intro w _
    simp only [Function.comp_apply, Nat.succ_eq_add_one]
    ring
  · rw [dif_neg (by tauto)]
    have : size - j = 0 := by omega
    rw [this]
    have : (0 + step - 1) / step = 0 := Nat.div_eq_of_lt (by omega)
    rw [this]
    simp
termination_by size - j
decreasing_by omega

/-- C6: for every homogeneous SeriesSet and window size n ≥ 1, reduceSkip
maps each series of length L to exactly ceil(L/n) = (L+n-1)/n records, the
r-th being the original record at index r*n, unchanged. -/
theorem reduceSkip_keeps_first_of_window (tsp : TSProc) (r : Draw) (n : Nat)
    (hh : isHomogeneous tsp r = true) (hn : 0 < n) :
    ∃ out, reduceSkip tsp r n = some out ∧ out.length = getNbTS tsp ∧
      ∀ i < getNbTS tsp,
        (out.getD i []).length = (getTSSize tsp i + n - 1) / n ∧
        ∀ w < (getTSSize tsp i + n - 1) / n,
          (out.getD i []).getD w [] = getDoc tsp i (w * n) := by
  refine ⟨_, by rw [reduceSkip, if_pos hh], by simp, ?_⟩
  intro i hi
  rw [getD_map_range _ _ _ _ hi, jloop_eq _ _ hn 0, List.map_map]
  have hzero : getTSSize tsp i - 0 + n - 1 = getTSSize tsp i + n - 1 := by omega
  rw [hzero]
  constructor
  · simp
  · intro w hw
    rw [getD_map_range _ _ _ _ hw]
    simp only [Function.comp_apply, Nat.zero_add]

/-- Closed witness for the C6 theorem: the specification scenario, a
four-document series skipped with window 2. -/
theorem reduceSkip_keeps_first_of_window_witness :
    ∃ out, reduceSkip exSingle ⟨0, 0, 0⟩ 2 = some out ∧ out.length = getNbTS exSingle ∧
      ∀ i < getNbTS exSingle,
        (out.getD i []).length = (getTSSize exSingle i + 2 - 1) / 2 ∧
        ∀ w < (getTSSize exSingle i + 2 - 1) / 2,
          (out.getD i []).getD w [] = getDoc exSingle i (w * 2) :=
  reduceSkip_keeps_first_of_window exSingle ⟨0, 0, 0⟩ 2 rfl (by decide)

/-- C10: renameField on any field of a series - the timestamp field or an
ordinary value field - rewrites every document of the series by deleting the
field and re-adding its value under the new name, and (as long as the series
has at least one document, so the loop body runs) also unconditionally
overwrites the timestamp field name of the series config with the new name. -/
theorem renameField_overwrites_config_timestamp (tsp : TSProc) (i : Nat) (f g : Field)
    (hne : 0 < getTSSize tsp i) (hconf : i < tsp.config.length) :
    getTimestampField (renameField tsp i f g) i = g ∧
    getNbTS (renameField tsp i f g) = getNbTS tsp ∧
    getTSSize (renameField tsp i f g) i = getTSSize tsp i ∧
    ∀ j < getTSSize tsp i,
      getDoc (renameField tsp i f g) i j =
        dset (ddel (getDoc tsp i j) f) g (dget (getDoc tsp i j) f) ∧
      dget (getDoc (renameField tsp i f g) i j) g = dget (getDoc tsp i j) f := by
  have hits : i < tsp.timeseries.length := by
    by_contra hc
    rw [getTSSize, List.getD_eq_getElem?_getD, List.getElem?_eq_none (by omega)] at hne
    simp at hne
  have hseries : (renameField tsp i f g).timeseries.getD i [] =
      (tsp.timeseries.getD i []).map (fun d =>
        dset (ddel d f) g (dget d f)) := by
    rw [renameField]
    simp only
    rw [List.getD_eq_getElem?_getD, List.getElem?_set_self (by simpa using hits)]
    rfl
  refine ⟨?_, ?_, ?_, ?_⟩
  · rw [getTimestampField, renameField]
    simp only [hne, if_pos]
    rw [List.getD_eq_getElem?_getD, List.getElem?_modify, List.getElem?_eq_getElem hconf]
    simp
  · rw [getNbTS, getNbTS, renameField]
    simp
  · rw [getTSSize, getTSSize, hseries, List.length_map]
  · intro j hj
    have hdoc : getDoc (renameField tsp i f g) i j =
        dset (ddel (getDoc tsp i j) f) g (dget (getDoc tsp i j) f) := by
      rw [getDoc, hseries, getDoc, List.getD_eq_getElem?_getD, List.getElem?_map,
        List.getD_eq_getElem?_getD]
      rw [List.getElem?_eq_getElem (by simpa [getTSSize] using hj)]
      simp only [Option.map_some', Option.getD_some]
      have hjlt : j < (tsp.timeseries[i]?.getD []).length := by
        simpa [getTSSize] using hj
      have hgd : ((tsp.timeseries[i]?.getD []).getD j []) = (tsp.timeseries[i]?.getD [])[j] := by
        rw [List.getD_eq_getElem?_getD, List.getElem?_eq_getElem hjlt]
        rfl
      rw [hgd]
    exact ⟨hdoc, by rw [hdoc, dget_dset_self]⟩

/-- Closed witness for the C10 theorem: renaming the ordinary value field "a"
of the example series also rewrites the config timestamp name to the new
name. -/
theorem renameField_overwrites_config_timestamp_witness :
    getTimestampField (renameField exSingle 0 "a" "new_a") 0 = "new_a" ∧
    getNbTS (renameField exSingle 0 "a" "new_a") = getNbTS exSingle ∧
    getTSSize (renameField exSingle 0 "a" "new_a") 0 = getTSSize exSingle 0 ∧
    ∀ j < getTSSize exSingle 0,
      getDoc (renameField exSingle 0 "a" "new_a") 0 j =
        dset (ddel (getDoc exSingle 0 j) "a") "new_a" (dget (getDoc exSingle 0 j) "a") ∧
      dget (getDoc (renameField exSingle 0 "a" "new_a") 0 j) "new_a" =
        dget (getDoc exSingle 0 j) "a" :=
  renameField_overwrites_config_timestamp exSingle 0 "a" "new_a" (by decide) (by decide)

/-- C5: for every homogeneous SeriesSet and window size k ≥ 1, every record
of reduceAvg equals the corresponding reduceSum record with every declared
field divided by the actual number of records folded into that window,
min k (L - w*k); and when k divides the series length the divisor of every
window is exactly k. -/
theorem reduceAvg_eq_reduceSum_divided (tsp : TSProc) (r : Draw) (k : Nat)
    (hh : isHomogeneous tsp r = true) (hk : 0 < k) :
    ∃ S A, reduceSum tsp r k = some S ∧ reduceAvg tsp r k = some A ∧
      A.length = S.length ∧
      ∀ i < getNbTS tsp,
        (A.getD i []).length = (S.getD i []).length ∧
        ∀ w < (S.getD i []).length,
          (A.getD i []).getD w [] =
            divWindow tsp i (min k (getTSSize tsp i - w * k)) ((S.getD i []).getD w []) ∧
          (k ∣ getTSSize tsp i →
            (A.getD i []).getD w [] = divWindow tsp i k ((S.getD i []).getD w [])) := by
  refine ⟨(List.range (getNbTS tsp)).map (fun i =>
      (jloop (getTSSize tsp i) k 0).map (fun j => sumWindow tsp i j k)),
    (List.range (getNbTS tsp)).map (fun i =>
      (jloop (getTSSize tsp i) k 0).map (fun j =>
        divWindow tsp i (windowCount (getTSSize tsp i) j k) (sumWindow tsp i j k))),
    by rw [reduceSum, if_pos hh], by rw [reduceAvg, if_pos hh], by simp, ?_⟩
  intro i hi
  rw [getD_map_range _ _ _ _ hi, getD_map_range _ _ _ _ hi]
  refine ⟨by simp, ?_⟩
  intro w hw
  rw [jloop_eq _ _ hk 0] at hw ⊢
  simp only [List.length_map, List.length_range] at hw
  rw [List.map_map, List.map_map, getD_map_range _ _ _ _ hw, getD_map_range _ _ _ _ hw]
  simp only [Function.comp_apply, Nat.zero_add]
  have hfirst : divWindow tsp i (windowCount (getTSSize tsp i) (w * k) k)
      (sumWindow tsp i (w * k) k) =
      divWindow tsp i (min k (getTSSize tsp i - w * k)) (sumWindow tsp i (w * k) k) := by
    rw [windowCount]
  refine ⟨hfirst, ?_⟩
  intro hdvd
  rw [hfirst]
  obtain ⟨m, hm⟩ := hdvd
  have hwm : w < m := by
    have : (getTSSize tsp i - 0 + k - 1) / k = m := by
      have h1 : getTSSize tsp i - 0 + k - 1 = k * m + (k - 1) := by omega
      rw [h1, Nat.mul_add_div hk, Nat.div_eq_of_lt (by omega)]
      omega
    omega
  have hle : w * k + k ≤ getTSSize tsp i := by
    have h1 : k * (w + 1) ≤ k * m := Nat.mul_le_mul_left k hwm
    have h2 : k * (w + 1) = w * k + k := by ring
    omega
  have hmin : min k (getTSSize tsp i - w * k) = k := by
    apply Nat.min_eq_left
    omega
  rw [hmin]

/-- Closed witness for the C5 theorem: the four-document example averaged and
summed with window 2 (an exact multiple of the length). -/
theorem reduceAvg_eq_reduceSum_divided_witness :
    ∃ S A, reduceSum exSingle ⟨0, 0, 0⟩ 2 = some S ∧ reduceAvg exSingle ⟨0, 0, 0⟩ 2 = some A ∧
      A.length = S.length ∧
      ∀ i < getNbTS exSingle,
        (A.getD i []).length = (S.getD i []).length ∧
        ∀ w < (S.getD i []).length,
          (A.getD i []).getD w [] =
            divWindow exSingle i (min 2 (getTSSize exSingle i - w * 2)) ((S.getD i []).getD w []) ∧
          (2 ∣ getTSSize exSingle i →
            (A.getD i []).getD w [] = divWindow exSingle i 2 ((S.getD i []).getD w [])) :=
  reduceAvg_eq_reduceSum_divided exSingle ⟨0, 0, 0⟩ 2 rfl (by decide)

/-- C1 counterexample: on a concrete homogeneous SeriesSet, undersample under
the max policy (and the min policy) with an unset target field reports no
error at all and leaves the stored timeseries unchanged - it does not report
a MissingTargetField error, contrary to the claim. -/
theorem undersample_max_unset_target_counterexample :
    (undersample exSingle ⟨0, 0, 0⟩ 3 2 none).2 = none ∧
    (undersample exSingle ⟨0, 0, 0⟩ 3 2 none).1 = exSingle ∧
    (undersample exSingle ⟨0, 0, 0⟩ 4 2 none).2 = none ∧
    (undersample exSingle ⟨0, 0, 0⟩ 4 2 none).1 = exSingle := by
  refine ⟨rfl, rfl, rfl, rfl⟩

/-- C1 (amended): for every SeriesSet without nominal fields, every window
size greater than 1 and every random draw, undersample under the max policy
(and the min policy) with an unset (or empty, hence falsy) target field is a
silent no-op: the reduction returns null, the stored timeseries is unchanged
and the callback receives no error. The source never produces a
MissingTargetField error. -/
theorem undersample_max_unset_target_noop (tsp : TSProc) (r : Draw) (ty sk : Nat)
    (target : Option Field) (hsk : 1 < sk) (hty : ty = 3 ∨ ty = 4)
    (hnom : isNominal tsp = false) (htar : optFieldTruthy target = false) :
    undersample tsp r ty sk target = (tsp, none) := by
  rw [undersample, if_pos hsk]
  have hguard : ¬(isNominal tsp = true ∧ ty ≠ 0) := by simp [hnom]
  rw [if_neg hguard]
  rcases hty with h | h
  · subst h
    have h3 : ReduceFunc tsp r 3 sk target = none := by
      show reduceMax tsp r sk target = none
      rw [reduceMax, if_neg]
      intro hcon
      rw [htar] at hcon
      exact absurd hcon.2 (by simp)
    rw [h3]
  · subst h
    have h4 : ReduceFunc tsp r 4 sk target = none := by
      show reduceMin tsp r sk target = none
      rw [reduceMin, if_neg]
      intro hcon
      rw [htar] at hcon
      exact absurd hcon.2 (by simp)
    rw [h4]

/-- Closed witness for the amended C1 theorem. -/
theorem undersample_max_unset_target_noop_witness :
    undersample exPair ⟨0, 0, 0⟩ 3 2 none = (exPair, none) :=
  undersample_max_unset_target_noop exPair ⟨0, 0, 0⟩ 3 2 none (by decide) (Or.inl rfl)
    (by decide) rfl

/-- C8 counterexample: on a concrete SeriesSet on which isHomogeneous is
false (two series of different lengths) but which carries a nominal field,
undersample under the sum policy reports the nominal-unsupported error -
contrary to the claim that every reduction policy is a silent no-op on a
non-homogeneous set. The timeseries is nevertheless unchanged. -/
theorem nonhomogeneous_undersample_counterexample :
    isHomogeneous exBad ⟨0, 0, 0⟩ = false ∧
    (undersample exBad ⟨0, 0, 0⟩ 1 2 none).2 =
      some "Only the skip can be applied to the nominal timeseries" ∧
    (undersample exBad ⟨0, 0, 0⟩ 1 2 none).1 = exBad := by
  refine ⟨rfl, rfl, rfl⟩

/-- C8 (amended): for every SeriesSet and draw on which isHomogeneous is
false, merge is a silent no-op (timeseries unchanged, no error), and
undersample is a silent no-op under every reduction policy provided the
nominal-field guard does not fire first, i.e. the set has no nominal fields
or the policy is skip (the nominal check precedes the homogeneity check and
reports its own error regardless of homogeneity, though it too leaves the
timeseries unchanged). -/
theorem nonhomogeneous_merge_undersample_noop (tsp : TSProc) (r r2 : Draw)
    (ty sk : Nat) (target : Option Field)
    (hh : isHomogeneous tsp r = false)
    (hnom : isNominal tsp = false ∨ ty = 0) :
    merge tsp r r2 = (tsp, none) ∧ undersample tsp r ty sk target = (tsp, none) := by
  constructor
  · rw [merge]
    by_cases h1 : getNbTS tsp = 1
    · rw [if_pos h1]
    · rw [if_neg h1, if_neg (by simp [hh])]
  · rw [undersample]
    by_cases hsk : 1 < sk
    · rw [if_pos hsk]
      have hguard : ¬(isNominal tsp = true ∧ ty ≠ 0) := by
        rcases hnom with h | h
        · simp [h]
        · simp [h]
      rw [if_neg hguard]
      have hred : ReduceFunc tsp r ty sk target = none := by
        rcases ty with _ | _ | _ | _ | _ | ty
        · show reduceSkip tsp r sk = none
          rw [reduceSkip, if_neg (by simp [hh])]
        · show reduceSum tsp r sk = none
          rw [reduceSum, if_neg (by simp [hh])]
        · show reduceAvg tsp r sk = none
          rw [reduceAvg, if_neg (by simp [hh])]
        · show reduceMax tsp r sk target = none
          rw [reduceMax, if_neg (by simp [hh])]
        · show reduceMin tsp r sk target = none
          rw [reduceMin, if_neg (by simp [hh])]
        · rfl
      rw [hred]
    · rw [if_neg hsk]

/-- Closed witness for the amended C8 theorem: the unequal-length example
with the skip policy. -/
theorem nonhomogeneous_merge_undersample_noop_witness :
    merge exBad ⟨0, 0, 0⟩ ⟨0, 0, 0⟩ = (exBad, none) ∧
    undersample exBad ⟨0, 0, 0⟩ 0 2 none = (exBad, none) :=
  nonhomogeneous_merge_undersample_noop exBad ⟨0, 0, 0⟩ ⟨0, 0, 0⟩ 0 2 none rfl (Or.inr rfl)

/-- Indexing a map by getD below the length. -/
theorem getD_map_lt {α β : Type} (l : List α) (f : α → β) (dflt : β) (da : α) (i : Nat)
    (hi : i < l.length) : (l.map f).getD i dflt = f (l.getD i da) := by
  rw [List.getD_eq_getElem?_getD, List.getElem?_map, List.getElem?_eq_getElem hi,
    List.getD_eq_getElem?_getD, List.getElem?_eq_getElem hi]
  rfl

/-- Summing pointwise negations negates the sum. -/
theorem sum_map_neg {α : Type} (l : List α) (f : α → ℚ) :
    (l.map (fun a => -(f a))).sum = -(l.map f).sum := by
  induction l with
  | nil => simp
  | cons a t ih =>
    simp only [List.map_cons, List.sum_cons, ih]
    ring

/-- C7: getCorrelationCoef evaluates the closed-form Pearson formula rounded
to 4 decimals; consequently a numeric sequence correlated with itself yields
1.0 and with its elementwise negation yields -1.0, whenever the shared
variance term n*Sum(x^2) - Sum(x)^2 is positive and the square-root function
is exact on the perfect square it receives (as the external Math.sqrt is). -/
theorem getCorrelationCoef_self_and_negation (xs : List ℚ) (sqrtFn : ℚ → ℚ)
    (hne : xs ≠ [])
    (hvar : 0 < (xs.length : ℚ) *
        ((List.range xs.length).map (fun i => xs.getD i 0 * xs.getD i 0)).sum -
        ((List.range xs.length).map (fun i => xs.getD i 0)).sum *
        ((List.range xs.length).map (fun i => xs.getD i 0)).sum)
    (hsqrt : ∀ q : ℚ, 0 ≤ q → sqrtFn (q * q) = q) :
    getCorrelationCoef sqrtFn xs xs = some 1 ∧
    getCorrelationCoef sqrtFn xs (xs.map (fun x => -x)) = some (-1) := by
  have hlen : 0 < xs.length := List.length_pos.mpr hne
  set n : ℚ := (xs.length : ℚ) with hn
  set Sx : ℚ := ((List.range xs.length).map (fun i => xs.getD i 0)).sum with hSx
  set Sxx : ℚ := ((List.range xs.length).map (fun i => xs.getD i 0 * xs.getD i 0)).sum with hSxx
  set D : ℚ := n * Sxx - Sx * Sx with hD
  have hDne : D ≠ 0 := ne_of_gt hvar
  have hsq : sqrtFn (D * D) = D := hsqrt D (le_of_lt hvar)
  have hr1 : round4 1 = 1 := by
    rw [round4]
    norm_num
  have hr2 : round4 (-1) = -1 := by
    rw [round4]
    have h1 : ((-1 : ℚ)) * 10000 = ((-10000 : ℤ) : ℚ) := by norm_num
    rw [h1, round_intCast]
    norm_num
  constructor
  · simp only [getCorrelationCoef, hlen, and_self, if_true]
    rw [← hSxx, ← hSx, ← hn, ← hD, hsq, div_self hDne, hr1]
  · have hlen2 : 0 < (xs.map (fun x => -x)).length := by
      simpa using hlen
    simp only [getCorrelationCoef, hlen, hlen2, and_self, if_true]
    have hys : ∀ i ∈ List.range xs.length,
        (xs.map (fun x => -x)).getD i 0 = -(xs.getD i 0) := by
      intro i hi
      rw [List.mem_range] at hi
      rw [getD_map_lt xs (fun x => -x) 0 0 i hi]
    have hxy : (List.range xs.length).map
          (fun i => xs.getD i 0 * (xs.map (fun x => -x)).getD i 0) =
        (List.range xs.length).map (fun i => -(xs.getD i 0 * xs.getD i 0)) := by
      apply List.map_congr_left
      intro i hi
      rw [hys i hi]
      ring
    have hy : (List.range xs.length).map (fun i => (xs.map (fun x => -x)).getD i 0) =
        (List.range xs.length).map (fun i => -(xs.getD i 0)) :=
      List.map_congr_left (fun i hi => hys i hi)
    have hyy : (List.range xs.length).map
          (fun i => (xs.map (fun x => -x)).getD i 0 * (xs.map (fun x => -x)).getD i 0) =
        (List.range xs.length).map (fun i => xs.getD i 0 * xs.getD i 0) := by
      apply List.map_congr_left
      intro i hi
      rw [hys i hi]
      ring
    rw [hxy, hy, hyy, sum_map_neg, sum_map_neg, ← hSxx, ← hSx, ← hn]
    have hnum : n * -Sxx - Sx * -Sx = -D := by
      rw [hD]
      ring
    have hden : (n * Sxx - Sx * Sx) * (n * Sxx - -Sx * -Sx) = D * D := by
      rw [hD]
      ring
    rw [hnum, hden, hsq, neg_div, div_self hDne, hr2]

/-- Closed witness for the C7 theorem: the sequence 1, 2, 3 against itself
and against its negation, with the exact rational square root standing in
for Math.sqrt. -/
theorem getCorrelationCoef_self_and_negation_witness :
    getCorrelationCoef Rat.sqrt [1, 2, 3] [1, 2, 3] = some 1 ∧
    getCorrelationCoef Rat.sqrt [1, 2, 3] (([1, 2, 3] : List ℚ).map (fun x => -x)) =
      some (-1) :=
  getCorrelationCoef_self_and_negation [1, 2, 3] Rat.sqrt (by decide)
    (by norm_num [List.range_succ])
    (fun q hq => by rw [Rat.sqrt_eq, abs_of_nonneg hq])

/-- C2: the claim (matching both the specification and the constructor's own
error message) is that construction fails when a record timestamp does not
parse; the code instead accepts such input. Evaluated at a two-document
series whose both timestamps are unparseable, the constructor reports no
error and returns a fully learned state, because its for-in validation loop
binds the index string instead of the document, so it checks
`moment.utc(undefined)` - the valid current clock - for every record. The
failed parses are nevertheless visible in the extracted dates array. -/
theorem tsinterpInit_accepts_invalid_timestamps :
    momentParse "garbage" = none ∧ momentParse "alsogarbage" = none ∧
    (tsinterpInit c2series c2desc).2 = none ∧
    (tsinterpInit c2series c2desc).1 =
      some { timeseries := c2series, nb_ts := 2, timestamp_field := "year",
             fields := [⟨"a", none⟩], interp_type := "linear",
             values_array := [[.num 1], [.num 2]],
             dates_array := [none, none], learned := true } := by
  refine ⟨rfl, rfl, rfl, rfl⟩

/-- The timestamp field of a freshly created interpolation document holds the
literal requested time string, provided no declared field shadows it. -/
theorem createDoc_timestamp (tsf : Field) (flds : List FieldConf) (time : String)
    (values : List JSVal) (htsf : tsf ∉ flds.map (·.name)) :
    dget (createDoc tsf flds time values) tsf = .str time := by
  rw [createDoc, dget_foldl_dset]
  have hnone : flds.enum.reverse.find? (fun p => p.2.name == tsf) = none := by
    rw [List.find?_eq_none]
    intro p hp hc
    have hmem : p ∈ flds.enum := List.mem_reverse.mp hp
    have hget : flds[p.1]? = some p.2 := List.mem_enum_iff_getElem?.mp hmem
    have hin : p.2 ∈ flds := List.getElem?_mem hget
    exact htsf (List.mem_map.mpr ⟨p.2, hin, by simpa using hc⟩)
  rw [hnone]
  exact dget_dset_self [] tsf (.str time)

/-- Every declared field of a freshly created interpolation document reads 0
when the value vector is 0 at every declared index. -/
theorem createDoc_value_zero (tsf : Field) (flds : List FieldConf) (time : String)
    (values : List JSVal)
    (hzero : ∀ j < flds.length, values.getD j .undefined = .num 0) :
    ∀ f ∈ flds.map (·.name), dget (createDoc tsf flds time values) f = .num 0 := by
  intro f hf
  rw [createDoc, dget_foldl_dset]
  obtain ⟨fc, hfc, hname⟩ := List.mem_map.mp hf
  obtain ⟨i, hi⟩ := List.getElem?_of_mem hfc
  have hmem : (i, fc) ∈ flds.enum.reverse := by
    rw [List.mem_reverse]
    exact List.mk_mem_enum_iff_getElem?.mpr hi
  have hsome : (flds.enum.reverse.find? (fun p => p.2.name == f)).isSome := by
    rw [List.find?_isSome]
    exact ⟨(i, fc), hmem, by simp [hname]⟩
  obtain ⟨p, hp⟩ := Option.isSome_iff_exists.mp hsome
  rw [hp]
  have hpmem : p ∈ flds.enum := List.mem_reverse.mp (List.mem_of_find?_eq_some hp)
  have hget : flds[p.1]? = some p.2 := List.mem_enum_iff_getElem?.mp hpmem
  have hlt : p.1 < flds.length := by
    by_contra hc
    rw [List.getElem?_eq_none (by omega)] at hget
    exact Option.noConfusion hget
  exact hzero p.1 hlt

/-- With pairwise distinct declared field names, the j-th declared field of a
freshly created interpolation document reads exactly the j-th entry of the
value vector. -/
theorem createDoc_value_at (tsf : Field) (flds : List FieldConf) (time : String)
    (values : List JSVal) (hnd : (flds.map (·.name)).Nodup)
    (j : Nat) (hj : j < flds.length) :
    dget (createDoc tsf flds time values) ((flds.get ⟨j, hj⟩).name) =
      values.getD j .undefined := by
  rw [createDoc, dget_foldl_dset]
  have hmemj : (j, flds.get ⟨j, hj⟩) ∈ flds.enum.reverse := by
    rw [List.mem_reverse]
    apply List.mk_mem_enum_iff_getElem?.mpr
    rw [List.getElem?_eq_getElem hj]
    rfl
  have hsome : (flds.enum.reverse.find? (fun p => p.2.name == (flds.get ⟨j, hj⟩).name)).isSome := by
    rw [List.find?_isSome]
    exact ⟨(j, flds.get ⟨j, hj⟩), hmemj, by simp⟩
  obtain ⟨p, hp⟩ := Option.isSome_iff_exists.mp hsome
  rw [hp]
  have hpmem : p ∈ flds.enum := List.mem_reverse.mp (List.mem_of_find?_eq_some hp)
  have hget : flds[p.1]? = some p.2 := List.mem_enum_iff_getElem?.mp hpmem
  have hlt : p.1 < flds.length := by
    by_contra hc
    rw [List.getElem?_eq_none (by omega)] at hget
    exact Option.noConfusion hget
  have hpval : p.2 = flds[p.1] := by
    rw [List.getElem?_eq_getElem hlt] at hget
    exact (Option.some_inj.mp hget).symm
  have hpred := List.find?_some hp
  simp only [beq_iff_eq] at hpred
  have hmap1 : p.1 < (flds.map (·.name)).length := by simpa using hlt
  have hmapj : j < (flds.map (·.name)).length := by simpa using hj
  have hnames : (flds.map (·.name))[p.1] = (flds.map (·.name))[j] := by
    rw [List.getElem_map, List.getElem_map]
    rw [← hpval, hpred]
    rfl
  have hpj : p.1 = j := (List.Nodup.getElem_inj_iff hnd).mp hnames
  show values.getD p.1 JSVal.undefined = values.getD j JSVal.undefined
  rw [hpj]

/-- The bracket-scanning loop of `smooth`, started anywhere at or before the
position of a sample whose timestamp equals the target, exits one past that
position with a zero difference, provided every earlier date is strictly
below the target. -/
theorem scanLoop_at_sample (ds : List ℤ) (t : ℤ) (k : Nat) (hk : k < ds.length)
    (hbefore : ∀ j < k, ds.getD j 0 < t) (hat : ds.getD k 0 = t)
    (i : Nat) (hi : i ≤ k) : scanLoop (ds.map some) t i = (k + 1, some 0) := by
  have hgetD : (ds.map some).getD i none = some (ds.getD i 0) := by
    have hilt : i < ds.length := lt_of_le_of_lt (by omega) hk
    rw [List.getD_eq_getElem?_getD, List.getElem?_map, List.getElem?_eq_getElem hilt,
      List.getD_eq_getElem?_getD, List.getElem?_eq_getElem hilt]
    rfl
  by_cases hik : i = k
  · subst hik
    rw [scanLoop, dif_neg]
    · rw [hgetD, hat]
      simp [optDiff]
    · rw [hgetD, hat]
      simp [optDiff, nanLt0]
  · have hilt : i < k := lt_of_le_of_ne hi hik
    rw [scanLoop, dif_pos]
    · exact scanLoop_at_sample ds t k hk hbefore hat (i + 1) hilt
    · constructor
      · rw [hgetD]
        simp only [optDiff, nanLt0, decide_eq_true_eq]
        have := hbefore i hilt
        omega
      · rw [List.length_map]
        omega
termination_by k - i
decreasing_by omega

/-- Indexing a list of valid moments. -/
theorem getD_map_some (ds : List ℤ) (i : Nat) (hi : i < ds.length) :
    (ds.map some).getD i none = some (ds.getD i 0) := by
  rw [List.getD_eq_getElem?_getD, List.getElem?_map, List.getElem?_eq_getElem hi,
    List.getD_eq_getElem?_getD, List.getElem?_eq_getElem hi]
  rfl

/-- getD below the length is getElem. -/
theorem getD_eq_getElem_of_lt {α : Type} (l : List α) (d : α) (i : Nat) (hi : i < l.length) :
    l.getD i d = l[i] := by
  rw [List.getD_eq_getElem?_getD, List.getElem?_eq_getElem hi]
  rfl

/-- Indexing a replicate below its length. -/
theorem getD_replicate_lt {α : Type} (n : Nat) (x : α) (d : α) (j : Nat) (hj : j < n) :
    (List.replicate n x).getD j d = x := by
  rw [List.getD_eq_getElem?_getD, List.getElem?_replicate, if_pos hj]
  rfl

/-- C3: for every learned interpolant state with valid, strictly sorted
sample dates, and every parseable target timestamp strictly before the first
sample (respectively strictly after the last), smooth evaluates the
interpolant at position -1 (respectively at position length), where the
fixed zero clip policy yields the all-zero value vector, and returns -
whatever the interpolation method, since the fractional interior evaluation
is universally quantified - a record whose timestamp field is the literal
requested timestamp and whose every declared value field is 0. -/
theorem smooth_outside_range_all_zero (st : TsinterpState) (interior : ℚ → List JSVal)
    (ds : List ℤ) (d : String) (t : ℤ)
    (hlearn : st.learned = true)
    (hdates : st.dates_array = ds.map some)
    (hlen : ds.length = st.nb_ts)
    (hpos : 0 < st.nb_ts)
    (hvals : st.values_array.length = st.nb_ts)
    (hvlen : ∀ v ∈ st.values_array, v.length = st.fields.length)
    (hsort : ds.Sorted (· < ·))
    (hparse : momentParse d = some t)
    (htsf : st.timestamp_field ∉ st.fields.map (·.name)) :
    (t < ds.getD 0 0 →
      ∃ doc, tsinterpSmooth st interior (some d) = (none, some doc) ∧
        dget doc st.timestamp_field = .str d ∧
        ∀ f ∈ st.fields.map (·.name), dget doc f = .num 0) ∧
    (ds.getD (st.nb_ts - 1) 0 < t →
      ∃ doc, tsinterpSmooth st interior (some d) = (none, some doc) ∧
        dget doc st.timestamp_field = .str d ∧
        ∀ f ∈ st.fields.map (·.name), dget doc f = .num 0) := by
  have h0lt : 0 < ds.length := by omega
  have hlast : st.nb_ts - 1 < ds.length := by omega
  have hmono : ∀ i j (hi : i < ds.length) (hj : j < ds.length), i < j → ds[i] < ds[j] :=
    fun i j hi hj hij => List.pairwise_iff_getElem.mp hsort i j hi hj hij
  have hzero_doc : ∀ pos : ℚ, (pos < 0 ∨ ((st.values_array.length : ℚ) - 1) < pos) →
      dget (createDoc st.timestamp_field st.fields d (smoothEval interior st.values_array pos))
        st.timestamp_field = .str d ∧
      ∀ f ∈ st.fields.map (·.name),
        dget (createDoc st.timestamp_field st.fields d (smoothEval interior st.values_array pos))
          f = .num 0 := by
    intro pos hout
    rw [smoothEval, if_pos hout]
    obtain ⟨v0, vrest, hv⟩ : ∃ v0 vrest, st.values_array = v0 :: vrest := by
      cases hval : st.values_array with
      | nil =>
        rw [hval] at hvals
        simp only [List.length_nil] at hvals
        omega
      | cons a l => exact ⟨a, l, rfl⟩
    have hv0len : v0.length = st.fields.length := hvlen v0 (by rw [hv]; exact List.mem_cons_self _ _)
    constructor
    · exact createDoc_timestamp _ _ _ _ htsf
    · apply createDoc_value_zero
      intro j hjf
      rw [hv]
      simp only [List.headD_cons]
      exact getD_replicate_lt _ _ _ j (by omega)
  constructor
  · intro hbef
    have hguard1 : nanGt0 (optDiff (st.dates_array.getD 0 none) (some t)) = true := by
      rw [hdates, getD_map_some ds 0 h0lt]
      simp only [optDiff, nanGt0, decide_eq_true_eq]
      omega
    refine ⟨createDoc st.timestamp_field st.fields d
      (smoothEval interior st.values_array (-1)), ?_, ?_, ?_⟩
    · simp only [tsinterpSmooth, hparse]
      rw [if_neg (by simp [hlearn]), if_pos hguard1]
    · exact (hzero_doc (-1) (Or.inl (by norm_num))).1
    · exact (hzero_doc (-1) (Or.inl (by norm_num))).2
  · intro haft
    have hd0le : ds.getD 0 0 ≤ ds.getD (st.nb_ts - 1) 0 := by
      rcases Nat.eq_zero_or_pos (st.nb_ts - 1) with h | h
      · rw [h]
      · rw [getD_eq_getElem_of_lt ds 0 0 h0lt, getD_eq_getElem_of_lt ds 0 _ hlast]
        exact le_of_lt (hmono 0 (st.nb_ts - 1) h0lt hlast h)
    have hguard1 : ¬(nanGt0 (optDiff (st.dates_array.getD 0 none) (some t)) = true) := by
      rw [hdates, getD_map_some ds 0 h0lt]
      simp only [optDiff, nanGt0, decide_eq_true_eq]
      omega
    have hguard2 : nanLt0 (optDiff (st.dates_array.getD (st.nb_ts - 1) none) (some t)) = true := by
      rw [hdates, getD_map_some ds _ hlast]
      simp only [optDiff, nanLt0, decide_eq_true_eq]
      omega
    refine ⟨createDoc st.timestamp_field st.fields d
      (smoothEval interior st.values_array (st.nb_ts : ℚ)), ?_, ?_, ?_⟩
    · simp only [tsinterpSmooth, hparse]
      rw [if_neg (by simp [hlearn]), if_neg hguard1, if_pos hguard2]
    · refine (hzero_doc (st.nb_ts : ℚ) (Or.inr ?_)).1
      rw [hvals]
      have : (0 : ℚ) < 1 := by norm_num
      linarith
    · refine (hzero_doc (st.nb_ts : ℚ) (Or.inr ?_)).2
      rw [hvals]
      have : (0 : ℚ) < 1 := by norm_num
      linarith

/-- Closed witness for the C3 theorem: the concrete two-sample interpolant
queried strictly before the first sample and strictly after the last. -/
theorem smooth_outside_range_all_zero_witness :
    (∃ doc, tsinterpSmooth exInterp (fun _ => []) (some "50") = (none, some doc) ∧
      dget doc exInterp.timestamp_field = .str "50" ∧
      ∀ f ∈ exInterp.fields.map (·.name), dget doc f = .num 0) ∧
    (∃ doc, tsinterpSmooth exInterp (fun _ => []) (some "300") = (none, some doc) ∧
      dget doc exInterp.timestamp_field = .str "300" ∧
      ∀ f ∈ exInterp.fields.map (·.name), dget doc f = .num 0) := by
  constructor
  · exact (smooth_outside_range_all_zero exInterp (fun _ => []) [100, 200] "50" 50
      rfl rfl rfl (by decide) rfl (by decide) (by decide) rfl (by decide)).1 (by decide)
  · exact (smooth_outside_range_all_zero exInterp (fun _ => []) [100, 200] "300" 300
      rfl rfl rfl (by decide) rfl (by decide) (by decide) rfl (by decide)).2 (by decide)

/-- C4: for every learned interpolant state with valid, strictly sorted
sample dates and pairwise distinct declared field names, and every parseable
target timestamp exactly equal to the k-th stored sample date, smooth scans
to that sample (the signed difference becomes exactly zero), evaluates the
interpolant at the integer position k - which returns the stored sample
vector unchanged - and returns a record carrying the literal requested
timestamp and, in every declared field, that sample's original stored
value. -/
theorem smooth_at_sample_returns_stored (st : TsinterpState) (interior : ℚ → List JSVal)
    (ds : List ℤ) (d : String) (t : ℤ) (k : Nat)
    (hlearn : st.learned = true)
    (hdates : st.dates_array = ds.map some)
    (hlen : ds.length = st.nb_ts)
    (hk : k < st.nb_ts)
    (hvals : st.values_array.length = st.nb_ts)
    (hsort : ds.Sorted (· < ·))
    (hparse : momentParse d = some t)
    (hat : ds.getD k 0 = t)
    (htsf : st.timestamp_field ∉ st.fields.map (·.name))
    (hnd : (st.fields.map (·.name)).Nodup) :
    ∃ doc, tsinterpSmooth st interior (some d) = (none, some doc) ∧
      dget doc st.timestamp_field = .str d ∧
      ∀ j, (hj : j < st.fields.length) →
        dget doc ((st.fields.get ⟨j, hj⟩).name) =
          (st.values_array.getD k []).getD j .undefined := by
  have hk' : k < ds.length := by omega
  have h0lt : 0 < ds.length := by omega
  have hlast : st.nb_ts - 1 < ds.length := by omega
  have hmono : ∀ i j (hi : i < ds.length) (hj : j < ds.length), i < j → ds[i] < ds[j] :=
    fun i j hi hj hij => List.pairwise_iff_getElem.mp hsort i j hi hj hij
  have hbef : ∀ j < k, ds.getD j 0 < t := by
    intro j hj
    rw [getD_eq_getElem_of_lt ds 0 j (by omega), ← hat, getD_eq_getElem_of_lt ds 0 k hk']
    exact hmono j k (by omega) hk' hj
  have hguard1 : ¬(nanGt0 (optDiff (st.dates_array.getD 0 none) (some t)) = true) := by
    rw [hdates, getD_map_some ds 0 h0lt]
    simp only [optDiff, nanGt0, decide_eq_true_eq]
    rcases Nat.eq_zero_or_pos k with hk0 | hk0
    · rw [← hat, hk0]
      omega
    · have := hbef 0 hk0
      omega
  have hguard2 : ¬(nanLt0 (optDiff (st.dates_array.getD (st.nb_ts - 1) none) (some t)) = true) := by
    rw [hdates, getD_map_some ds _ hlast]
    simp only [optDiff, nanLt0, decide_eq_true_eq]
    rcases Nat.lt_or_ge k (st.nb_ts - 1) with hkl | hkl
    · have hlt : ds.getD k 0 < ds.getD (st.nb_ts - 1) 0 := by
        rw [getD_eq_getElem_of_lt ds 0 k hk', getD_eq_getElem_of_lt ds 0 _ hlast]
        exact hmono k _ hk' hlast hkl
      omega
    · have hke : k = st.nb_ts - 1 := by omega
      rw [← hke, hat]
      omega
  have hscan : scanLoop st.dates_array t 0 = (k + 1, some 0) := by
    rw [hdates]
    exact scanLoop_at_sample ds t k hk' hbef hat 0 (Nat.zero_le k)
  have hin : ¬(((k : ℕ) : ℚ) < 0 ∨ ((st.values_array.length : ℚ) - 1) < ((k : ℕ) : ℚ)) := by
    push_neg
    constructor
    · positivity
    · rw [hvals]
      have hcast : (k : ℚ) + 1 ≤ (st.nb_ts : ℚ) := by exact_mod_cast hk
      linarith
  have heval : smoothEval interior st.values_array ((k : ℕ) : ℚ) =
      st.values_array.getD k [] := by
    rw [smoothEval, if_neg hin, if_pos (by rw [Rat.den_natCast])]
    rw [Rat.num_natCast, Int.toNat_natCast]
  refine ⟨createDoc st.timestamp_field st.fields d (st.values_array.getD k []), ?_, ?_, ?_⟩
  · simp only [tsinterpSmooth, hparse]
    rw [if_neg (by simp [hlearn]), if_neg hguard1, if_neg hguard2, hscan]
    rw [if_pos (show nanEq0 ((k + 1, (some 0 : Option ℤ)).2) = true from rfl)]
    show (none, some (createDoc st.timestamp_field st.fields d
      (smoothEval interior st.values_array (((k + 1 : ℕ) : ℚ) - 1)))) = _
    have hposq : ((k + 1 : ℕ) : ℚ) - 1 = ((k : ℕ) : ℚ) := by
      push_cast
      ring
    rw [hposq, heval]
  · exact createDoc_timestamp _ _ _ _ htsf
  · intro j hj
    exact createDoc_value_at st.timestamp_field st.fields d _ hnd j hj

/-- Closed witness for the C4 theorem: the concrete two-sample interpolant
queried exactly at its first sample timestamp. -/
theorem smooth_at_sample_returns_stored_witness :
    ∃ doc, tsinterpSmooth exInterp (fun _ => []) (some "100") = (none, some doc) ∧
      dget doc exInterp.timestamp_field = .str "100" ∧
      ∀ j, (hj : j < exInterp.fields.length) →
        dget doc ((exInterp.fields.get ⟨j, hj⟩).name) =
          (exInterp.values_array.getD 0 []).getD j .undefined :=
  smooth_at_sample_returns_stored exInterp (fun _ => []) [100, 200] "100" 100 0
    rfl rfl rfl (by decide) rfl (by decide) rfl (by decide) (by decide) (by decide)

end Tsproc
